import Mathlib

/-!
Verification model of the registry.express aggregation engine.

This file gives a shallow embedding of the JavaScript sources:
  * `scripts/build.js`        — `loadServerFile`, the ingestion loop of `build`,
    `toApiServerSummary`, the dist artifact layout, `encodeServerName`;
  * `scripts/server.cjs`      — `resolveFilePath`, `runBuild`'s in-progress guard,
    `validateWebhookSignature`, `handleWebhook`;
  * `scripts/dynamic-server.js` — `refreshCache`;
  * `src/cli/commands/import.js` — `mergeVersions`.

JSON values are embedded as Lean structures with `Option` fields standing for
possibly-absent JavaScript properties.  JavaScript truthiness tests on those
fields are modelled explicitly (`truthyStr`, `Option.isSome`).  Asynchronous
control flow is modelled as explicit state passing, and `Array.prototype.sort`
is modelled as a comparator-parameterised sorting function.
-/

/-- One element of a version's `packages` array (a package distribution). -/
structure Package where
  registryType : String
  identifier : String
deriving Repr, DecidableEq

/-- One element of a server's `versions` array.  An absent `isLatest`
property behaves exactly like `false` in every use site of the source
(`v.isLatest || false`, `versions.find(v => v.isLatest)`), so it is embedded
as a plain `Bool` defaulting to `false`. -/
structure VersionRecord where
  version : String
  releaseDate : Option String := none
  isLatest : Bool := false
  packages : List Package := []
deriving Repr, DecidableEq

/-- A raw server object as found in a registry JSON file.  `version` and
`packages` are the top-level fields of the flat single-version shape. -/
structure RawServer where
  name : Option String := none
  description : Option String := none
  versions : Option (List VersionRecord) := none
  version : Option String := none
  packages : Option (List Package) := none
deriving Repr, DecidableEq

/-- A parsed registry JSON file: either a multi-server container (its
`servers` field is an array) or a single-server object (all the
`RawServer` fields live at top level). -/
structure RawData extends RawServer where
  servers : Option (List RawServer) := none
deriving Repr, DecidableEq

/-- JS truthiness of an optional string property: `undefined`/`null` and the
empty string are falsy, every other string is truthy. -/
def truthyStr : Option String → Bool
  | none => false
  | some s => !(s == "")

/-- The required-field check of `loadServerFile` (`build.js` lines 63 and 71):
`!server.name || !server.description || !server.versions` rejects.  Note the
`versions` test is plain JS truthiness: an *empty array* is truthy and passes,
while an absent field fails — a top-level `version` string does not help. -/
def hasRequired (server : RawServer) : Bool :=
  truthyStr server.name && truthyStr server.description && server.versions.isSome

/-- `loadServerFile` (`build.js` lines 55–76), minus file I/O and JSON
parsing: on a container file every element must pass `hasRequired` or the
whole file throws; on a single-server file the object itself must pass.
The thrown `Error` is embedded as `Except.error`. -/
def loadServerFile (data : RawData) : Except String (List RawServer) :=
  match data.servers with
  | some ss =>
      if ss.all hasRequired then .ok ss
      else .error "Invalid server in file: missing required fields (name, description, or versions)"
  | none =>
      if hasRequired data.toRawServer then .ok [data.toRawServer]
      else .error "Invalid server file: missing required fields"

/-- The ingestion loop of `build` (`build.js` lines 192–204): each file is
loaded inside a `try`/`catch`; a file that throws contributes an error line
and nothing else, a file that loads contributes all its servers, in
discovery order.  Returns the accumulated server list and error list. -/
def ingestServers : List RawData → List RawServer × List String
  | [] => ([], [])
  | f :: fs =>
      match loadServerFile f, ingestServers fs with
      | .ok ss, (srv, errs) => (ss ++ srv, errs)
      | .error e, (srv, errs) => (srv, e :: errs)

/-- Insert one element into a list ordered by a boolean comparator. -/
def insertBy (le : α → α → Bool) (a : α) : List α → List α
  | [] => [a]
  | b :: bs => if le a b then a :: b :: bs else b :: insertBy le a bs

/-- `Array.prototype.sort` with a comparator (`servers.sort((a, b) =>
a.name.localeCompare(b.name))`, `build.js` line 207), modelled as insertion
sort parameterised by the comparator.  Every claim proved below about the
sorted list is invariant under the comparator (the sort only permutes). -/
def sortBy (le : α → α → Bool) : List α → List α
  | [] => []
  | a :: as => insertBy le a (sortBy le as)

theorem insertBy_perm (le : α → α → Bool) (a : α) (l : List α) :
    (insertBy le a l).Perm (a :: l) := by
  induction l with
  | nil => exact List.Perm.refl _
  | cons b bs ih =>
      by_cases h : le a b = true
      · simp [insertBy, h]
      · simp only [insertBy, h, if_false, Bool.not_eq_true]
        exact ((ih.cons b).trans (List.Perm.swap a b bs))

theorem sortBy_perm (le : α → α → Bool) (l : List α) :
    (sortBy le l).Perm l := by
  induction l with
  | nil => exact List.Perm.refl _
  | cons a as ih =>
      exact (insertBy_perm le a (sortBy le as)).trans (ih.cons a)

/-- The canonical published server list: all successfully loaded servers in
discovery order, then sorted by the name comparator (`build.js` lines
192–207). -/
def buildServers (files : List RawData) (cmp : RawServer → RawServer → Bool) :
    List RawServer :=
  sortBy cmp (ingestServers files).1

/-- How many servers in a list carry a given identifier. -/
def nameCount (servers : List RawServer) (n : String) : Nat :=
  servers.countP (fun s => s.name == some n)

/-- `versions.find(v => v.isLatest) || versions[0]` — the latest-version
selection used by `toApiServerSummary`, the latest alias and the VS Code
list (`build.js` lines 82, 223, 271).  `none` models the JS value
`undefined` (which crashes the caller on field access). -/
def latestOf (versions : List VersionRecord) : Option VersionRecord :=
  match versions.find? (fun v => v.isLatest) with
  | some v => some v
  | none => versions.head?

/-- The summary record produced for the list endpoint. -/
structure ServerSummary where
  name : Option String
  description : Option String
  version : String
deriving Repr, DecidableEq

/-- `toApiServerSummary` (`build.js` lines 81–90).  Returns `none` when the
JS code would crash: a server whose `versions` array is empty makes
`latestVersion` `undefined` and `latestVersion.version` throw. -/
def toApiServerSummary (server : RawServer) : Option ServerSummary :=
  match server.versions with
  | none => none
  | some vs =>
      match latestOf vs with
      | none => none
      | some lv =>
          some { name := server.name, description := server.description,
                 version := lv.version }

/-! ### Concrete fixtures for the normalizer claims -/

/-- Fixture: a valid single-server file declaring `io.example/foo`. -/
def c1fileA : RawData :=
  { name := some "io.example/foo", description := some "x",
    versions := some [{ version := "1.0.0", isLatest := true }] }

/-- Fixture: a second, later-discovered file declaring the same identifier
`io.example/foo`. -/
def c1fileB : RawData :=
  { name := some "io.example/foo", description := some "x2",
    versions := some [{ version := "2.0.0", isLatest := true }] }

/-- Fixture: a single-server file whose `versions` array flags two versions
as latest. -/
def c2file : RawData :=
  { name := some "io.example/multi", description := some "m",
    versions := some [{ version := "1.0.0", isLatest := true },
                      { version := "2.0.0", isLatest := true }] }

/-- Fixture: a valid element of a container file. -/
def c6good : RawServer :=
  { name := some "io.example/good", description := some "g",
    versions := some [{ version := "1.0.0", isLatest := true }] }

/-- Fixture: an invalid element (missing `description`) of the same
container file. -/
def c6bad : RawServer :=
  { name := some "io.example/bad",
    versions := some [{ version := "1.0.0", isLatest := true }] }

/-- Fixture: a container file with one valid and one invalid element. -/
def c6file : RawData := { servers := some [c6good, c6bad] }

/-- Fixture: the flat single-version file shape documented in the README
(`name`, `description`, top-level `version` and `packages`, no `versions`
array). -/
def c7flatFile : RawData :=
  { name := some "io.github.user/my-server",
    description := some "My awesome MCP server",
    version := some "1.0.0",
    packages := some [{ registryType := "npm", identifier := "@user/my-server" }] }

/-- Whether `loadServerFile` accepts a file. -/
def loadOk (f : RawData) : Bool :=
  match loadServerFile f with
  | .ok _ => true
  | .error _ => false

theorem ingestServers_fst_count (files : List RawData) (n : String) :
    nameCount (ingestServers files).1 n =
      (files.map (fun f =>
        match loadServerFile f with
        | .ok ss => nameCount ss n
        | .error _ => 0)).sum := by
  induction files with
  | nil => rfl
  | cons f fs ih =>
      simp only [ingestServers, List.map_cons, List.sum_cons]
      cases hf : loadServerFile f with
      | ok ss =>
          simp only [nameCount, List.countP_append] at *
          omega
      | error e =>
          simpa using ih

theorem ingestServers_snd_length (files : List RawData) :
    (ingestServers files).2.length = files.countP (fun f => !loadOk f) := by
  induction files with
  | nil => rfl
  | cons f fs ih =>
      cases hf : loadServerFile f with
      | ok ss =>
          have hok : loadOk f = true := by simp [loadOk, hf]
          simp [ingestServers, hf, hok, List.countP_cons, ih]
      | error e =>
          have hok : loadOk f = false := by simp [loadOk, hf]
          simp [ingestServers, hf, hok, List.countP_cons, ih]

/-- C1 (counterexample): two raw files both declaring `io.example/foo` are
*both* kept in the published canonical list — `nameCount` is 2, not 1 — and
the ingestion pass records no error at all, contradicting the claim that
exactly one survives and a conflict error is recorded for the other.
(The count is invariant under the sort comparator, since sorting only
permutes; the fixed comparator here is therefore harmless.) -/
theorem identifier_conflict_not_detected :
    nameCount (buildServers [c1fileA, c1fileB] (fun _ _ => true)) "io.example/foo" = 2
    ∧ (ingestServers [c1fileA, c1fileB]).2 = [] := by
  constructor
  · decide
  · decide

/-- C1 (amended): the ingestion pass performs no identifier-uniqueness
check: every server of every successfully loaded file survives into the
published set — entries with colliding identifiers are all kept — and the
error list contains exactly one entry per file that failed to load, so an
identifier collision never contributes an error. -/
theorem buildServers_keeps_all_loaded (files : List RawData)
    (cmp : RawServer → RawServer → Bool) (n : String) :
    nameCount (buildServers files cmp) n =
      (files.map (fun f =>
        match loadServerFile f with
        | .ok ss => nameCount ss n
        | .error _ => 0)).sum
    ∧ (ingestServers files).2.length = files.countP (fun f => !loadOk f) := by
  refine ⟨?_, ingestServers_snd_length files⟩
  have hperm := sortBy_perm cmp (ingestServers files).1
  calc nameCount (buildServers files cmp) n
      = nameCount (ingestServers files).1 n :=
        List.Perm.countP_eq _ hperm
    _ = _ := ingestServers_fst_count files n

/-- C2 (counterexample): a source file flagging two versions as latest
passes through normalization with *both* flags still set — the canonical
entry does not have exactly one `isLatest=true` version. -/
theorem two_latest_flags_survive :
    loadServerFile c2file = .ok [c2file.toRawServer]
    ∧ ((c2file.toRawServer.versions.getD []).countP (fun v => v.isLatest)) = 2 :=
  ⟨rfl, by decide⟩

/-- C2 (amended): normalization passes entries through unchanged — the
server list returned by `loadServerFile` is exactly the source file's
content, version lists included, so zero or several `isLatest` flags
survive; exactly-one-latest is never established by normalization. -/
theorem loadServerFile_passthrough (data : RawData) (ss : List RawServer)
    (h : loadServerFile data = .ok ss) :
    ss = match data.servers with
         | some l => l
         | none => [data.toRawServer] := by
  cases hd : data.servers with
  | some l =>
      simp only [loadServerFile, hd] at h
      by_cases hb : l.all hasRequired
      · rw [if_pos hb] at h
        injection h with h'
        simp [h']
      · rw [if_neg hb] at h
        cases h
  | none =>
      simp only [loadServerFile, hd] at h
      by_cases hb : hasRequired data.toRawServer
      · rw [if_pos hb] at h
        injection h with h'
        simp [h']
      · rw [if_neg hb] at h
        cases h

/-- Witness for `loadServerFile_passthrough` at the concrete fixture. -/
theorem loadServerFile_passthrough_witness :
    [c2file.toRawServer] =
      (match c2file.servers with
       | some l => l
       | none => [c2file.toRawServer]) :=
  loadServerFile_passthrough c2file [c2file.toRawServer] rfl

/-- C6 (counterexample): in a container file with one valid and one invalid
element, the whole file throws and the valid sibling `c6good` is *not*
returned — the ingestion pass for this file yields no servers at all,
contradicting per-element error collection. -/
theorem container_partial_failure_aborts_file :
    loadServerFile c6file =
      .error "Invalid server in file: missing required fields (name, description, or versions)"
    ∧ (ingestServers [c6file]).1 = [] :=
  ⟨rfl, by decide⟩

/-- C6 (amended): container files are all-or-nothing: if every element
passes the required-field check the whole array is returned, if any element
fails the whole file is rejected with a single error and no sibling element
survives; other files of the same pass are unaffected either way. -/
theorem loadServerFile_container_all_or_nothing (data : RawData)
    (ss : List RawServer) (fs : List RawData)
    (h : data.servers = some ss) :
    (ss.all hasRequired = true → loadServerFile data = .ok ss)
    ∧ (ss.all hasRequired = false →
        loadServerFile data =
          .error "Invalid server in file: missing required fields (name, description, or versions)")
    ∧ (ingestServers (data :: fs)).1 =
        (if ss.all hasRequired then ss else []) ++ (ingestServers fs).1 := by
  refine ⟨?_, ?_, ?_⟩
  · intro hb
    simp [loadServerFile, h, hb]
  · intro hb
    simp [loadServerFile, h, hb]
  · by_cases hb : ss.all hasRequired
    · simp [ingestServers, loadServerFile, h, hb]
    · simp [ingestServers, loadServerFile, h, hb]

/-- Witness for `loadServerFile_container_all_or_nothing` at the concrete
mixed container fixture. -/
theorem loadServerFile_container_all_or_nothing_witness :
    (ingestServers [c6file]).1 =
      (if [c6good, c6bad].all hasRequired then [c6good, c6bad] else [])
        ++ (ingestServers []).1 :=
  (loadServerFile_container_all_or_nothing c6file [c6good, c6bad] [] rfl).2.2

/-- C7 (code bug): the flat single-version shape documented in the README —
`name`, `description`, top-level `version` + `packages`, no `versions`
array — is *rejected* by `loadServerFile` ("missing required fields"), so
the build publishes no entry for it (and records one error), instead of
synthesizing a one-element `versions` list flagged latest. -/
theorem flat_shape_rejected :
    loadServerFile c7flatFile = .error "Invalid server file: missing required fields"
    ∧ (ingestServers [c7flatFile]).1 = []
    ∧ (ingestServers [c7flatFile]).2.length = 1 :=
  ⟨rfl, by decide, by decide⟩

/-! ### Sync coordinator: the single-flight build guard
(`server.cjs` `runBuild`, `dynamic-server.js` `refreshCache`) -/

/-- How one `runBuild` invocation ends (`server.cjs` lines 137–176):
skipped because `isBuilding` was already set; the spawned build process
emitted `close` with an exit code; or the spawn itself emitted `error`. -/
inductive RunOutcome where
  | skippedInProgress
  | completed (code : Nat)
  | spawnFailed
deriving Repr, DecidableEq

/-- The boolean each `runBuild` promise resolves with: `false` for a skip
(line 140), `code === 0` for a completed build (lines 157–167), `false`
for a spawn error (lines 170–174). -/
def runBuildReturn : RunOutcome → Bool
  | .skippedInProgress => false
  | .completed code => code == 0
  | .spawnFailed => false

/-- Events of the build-guard transition system: a rebuild trigger (manual
refresh, webhook or poll timer — all of them call `runBuild`), or the
completion of the in-flight build process (`close` with ok/failing exit
code; the `error` event of a failed spawn behaves like a failing
completion, both reset `isBuilding` before resolving). -/
inductive BuildEvent where
  | trigger
  | finish (ok : Bool)
deriving Repr, DecidableEq

/-- The cross-task shared state of `server.cjs`: the module-level
`isBuilding` flag, plus (model bookkeeping) the number of build passes
currently in flight. -/
structure SyncState where
  isBuilding : Bool
  running : Nat
deriving Repr, DecidableEq

/-- Process start state: no build running. -/
def initialSyncState : SyncState := { isBuilding := false, running := 0 }

/-- One interleaving step.  A trigger while `isBuilding` resolves `false`
immediately and changes nothing — nothing is queued (`server.cjs` lines
138–141).  Otherwise the trigger sets the flag and a pass starts (its
promise is pending, outcome `none`).  A finish clears the flag *then*
resolves the promise (lines 157–174). -/
def syncStep (s : SyncState) (e : BuildEvent) : SyncState × Option Bool :=
  match e with
  | .trigger =>
      if s.isBuilding then (s, some (runBuildReturn .skippedInProgress))
      else ({ isBuilding := true, running := s.running + 1 }, none)
  | .finish ok =>
      if s.running == 0 then (s, none)
      else ({ isBuilding := false, running := s.running - 1 },
            some (runBuildReturn (.completed (if ok then 0 else 1))))

/-- Run a whole event trace from process start. -/
def execTrace (evs : List BuildEvent) : SyncState :=
  evs.foldl (fun s e => (syncStep s e).1) initialSyncState

/-- The guard invariant: the flag is set exactly while a pass is in
flight, and at most one pass is ever in flight. -/
def SyncInv (s : SyncState) : Prop :=
  s.isBuilding = (s.running == 1) ∧ s.running ≤ 1

theorem syncStep_inv {s : SyncState} (e : BuildEvent) (h : SyncInv s) :
    SyncInv ((syncStep s e).1) := by
  obtain ⟨h1, h2⟩ := h
  cases e with
  | trigger =>
      by_cases hb : s.isBuilding
      · simp only [syncStep, hb, if_true]
        exact ⟨h1, h2⟩
      · have hb' : s.isBuilding = false := by simpa using hb
        have hr1 : s.running ≠ 1 := by
          intro hx
          rw [hx, hb'] at h1
          simp at h1
        have hr0 : s.running = 0 := by omega
        simp [syncStep, hb', SyncInv, hr0]
  | finish ok =>
      by_cases hr : s.running = 0
      · have hc : (s.running == 0) = true := by simp [hr]
        simp only [syncStep, hc, if_true]
        exact ⟨h1, h2⟩
      · have hc : (s.running == 0) = false := by simpa using hr
        have hr1 : s.running = 1 := by omega
        simp [syncStep, hc, SyncInv, hr1]

theorem execTrace_inv (evs : List BuildEvent) : SyncInv (execTrace evs) := by
  suffices h : ∀ s, SyncInv s →
      SyncInv (evs.foldl (fun s e => (syncStep s e).1) s) by
    exact h initialSyncState (by constructor <;> decide)
  induction evs with
  | nil => intro s hs; exact hs
  | cons e es ih =>
      intro s hs
      exact ih _ (syncStep_inv e hs)

/-- C3 (counterexample): the outcome `runBuild` resolves for a skipped
trigger is `false` — exactly the value resolved by a pass that ran and
failed (non-zero exit code), so the skipped outcome is *not* distinguishable
from a pass that ran. -/
theorem skip_outcome_equals_failed_outcome :
    runBuildReturn .skippedInProgress = runBuildReturn (.completed 1) := rfl

/-- C3 (amended): in every reachable state at most one build pass is in
flight; a trigger arriving while a build is running leaves the state
unchanged (not queued) and resolves `false` immediately — a value equal to
that of a failed pass and distinguishable only from a successful pass. -/
theorem single_flight_guard (evs : List BuildEvent) :
    (execTrace evs).running ≤ 1
    ∧ ((execTrace evs).isBuilding = true →
        syncStep (execTrace evs) .trigger = (execTrace evs, some false))
    ∧ runBuildReturn .skippedInProgress = runBuildReturn (.completed 1)
    ∧ runBuildReturn .skippedInProgress ≠ runBuildReturn (.completed 0) := by
  refine ⟨(execTrace_inv evs).2, ?_, rfl, by decide⟩
  intro hb
  simp [syncStep, hb, runBuildReturn]

/-- Witness for `single_flight_guard`: after one trigger a build is in
flight, and a second trigger is skipped in place. -/
theorem single_flight_guard_witness :
    syncStep (execTrace [BuildEvent.trigger]) .trigger
      = (execTrace [BuildEvent.trigger], some false) :=
  (single_flight_guard [BuildEvent.trigger]).2.1 (by decide)

/-- The in-memory cache of `dynamic-server.js` (`serverCache`, lines
40–44). -/
structure ServerCache where
  servers : List RawServer
  lastRefresh : Option Nat
  refreshing : Bool
deriving Repr, DecidableEq

/-- `refreshCache` (`dynamic-server.js` lines 123–148): skip when a refresh
is already in flight; otherwise set the flag, await the GitHub fetch,
install the fetched servers on success, keep the old cache on failure, and
reset the flag in `finally` in *both* cases before returning.  The fetch is
embedded by its result, `now` models `new Date()`.  The returned `Bool`
tells whether this call performed a refresh (`false` = skipped). -/
def refreshCache (cache : ServerCache)
    (fetchResult : Except String (List RawServer)) (now : Nat) :
    ServerCache × Bool :=
  if cache.refreshing then (cache, false)
  else
    match fetchResult with
    | .ok servers =>
        ({ servers := servers, lastRefresh := some now, refreshing := false }, true)
    | .error _ => ({ cache with refreshing := false }, true)

/-- C10: every way an attempt can end resets the guard flag before its
outcome is reported — a finished build (zero or non-zero exit) and a failed
spawn reset `isBuilding` (both `close` and `error` handlers clear it before
resolving), and `refreshCache` resets `refreshing` in `finally` whether the
fetch succeeded or threw.  Consequently, once no pass is in flight, a new
trigger is never skipped: no sequence of failed attempts wedges the guard. -/
theorem build_guard_reset_on_every_outcome (s : SyncState) (ok : Bool)
    (cache : ServerCache) (fetchResult : Except String (List RawServer))
    (now : Nat) (evs : List BuildEvent)
    (hs : s.running ≠ 0) (hc : cache.refreshing = false) :
    ((syncStep s (.finish ok)).1).isBuilding = false
    ∧ ((refreshCache cache fetchResult now).1).refreshing = false
    ∧ ((execTrace evs).running = 0 →
        (syncStep (execTrace evs) .trigger).2 = none) := by
  refine ⟨?_, ?_, ?_⟩
  · have : (s.running == 0) = false := by simpa using hs
    simp [syncStep, this]
  · cases fetchResult with
    | ok servers => simp [refreshCache, hc]
    | error e => simp [refreshCache, hc]
  · intro hr
    have hinv := execTrace_inv evs
    have hb : (execTrace evs).isBuilding = false := by
      rw [hinv.1, hr]
      rfl
    simp [syncStep, hb]

/-- Witness for `build_guard_reset_on_every_outcome` at concrete inputs:
a failing finish, a throwing fetch, and the trace trigger-then-fail. -/
theorem build_guard_reset_witness :
    ((syncStep { isBuilding := true, running := 1 } (.finish false)).1).isBuilding = false
    ∧ ((refreshCache { servers := [], lastRefresh := none, refreshing := false }
          (.error "fetch timeout") 0).1).refreshing = false
    ∧ ((execTrace [BuildEvent.trigger, BuildEvent.finish false]).running = 0 →
        (syncStep (execTrace [BuildEvent.trigger, BuildEvent.finish false]) .trigger).2
          = none) :=
  build_guard_reset_on_every_outcome { isBuilding := true, running := 1 } false
    { servers := [], lastRefresh := none, refreshing := false } (.error "fetch timeout")
    0 [BuildEvent.trigger, BuildEvent.finish false] (by decide) (by decide)

/-! ### Webhook authentication (`server.cjs` lines 181–251) -/

/-- `validateWebhookSignature` (`server.cjs` lines 181–193).  The HMAC-SHA256
hex computation is abstracted as a function `hmacHex` of the secret and the
raw payload; the claims hold for every such function.  `crypto.timingSafeEqual`
throws on length mismatch (caught, giving `false`) and otherwise compares
bytes in constant time, which as a function of the inputs is exactly string
equality of signature header and expected digest. -/
def validateWebhookSignature (webhookSecret : Option String)
    (hmacHex : String → String → String)
    (payload : String) (signature : Option String) : Bool :=
  match webhookSecret with
  | none => true
  | some secret =>
      match signature with
      | none => false
      | some sig => sig == "sha256=" ++ hmacHex secret payload

/-- The observable outcome of one webhook request: HTTP status and whether
a rebuild was triggered. -/
structure WebhookOutcome where
  status : Nat
  rebuildTriggered : Bool
deriving Repr, DecidableEq

/-- `handleWebhook` (`server.cjs` lines 198–251).  `parseRef` models
`JSON.parse(body)` followed by reading `payload.ref?.replace('refs/heads/','')`:
outer `none` means `JSON.parse` throws (500 branch), the inner option is the
optional stripped `ref` property.  A signature failure answers 403 before
any git or build work; only the validated tracked-branch (or local-mode)
path reaches `runBuild`. -/
def handleWebhook (webhookSecret : Option String)
    (hmacHex : String → String → String)
    (parseRef : String → Option (Option String))
    (trackedBranch : String) (isRemote : Bool)
    (body : String) (signature : Option String) : WebhookOutcome :=
  if !(validateWebhookSignature webhookSecret hmacHex body signature) then
    { status := 403, rebuildTriggered := false }
  else
    match parseRef body with
    | none => { status := 500, rebuildTriggered := false }
    | some refOpt =>
        let branch := refOpt.getD "unknown"
        if branch == trackedBranch || !isRemote then
          { status := 200, rebuildTriggered := true }
        else
          { status := 200, rebuildTriggered := false }

/-- C8: with a secret configured, a webhook whose signature header is
missing or differs from `sha256=` + HMAC-SHA256(secret, raw body) is
answered 403 and triggers no rebuild; with no secret configured the
signature check passes unconditionally and the request is never rejected
with 403. -/
theorem webhook_signature_enforced
    (hmacHex : String → String → String)
    (parseRef : String → Option (Option String))
    (trackedBranch : String) (isRemote : Bool)
    (body : String) (signature : Option String) (secret : String) :
    ((signature = none ∨
        ∀ s, signature = some s → s ≠ "sha256=" ++ hmacHex secret body) →
      handleWebhook (some secret) hmacHex parseRef trackedBranch isRemote body signature
        = { status := 403, rebuildTriggered := false })
    ∧ validateWebhookSignature none hmacHex body signature = true
    ∧ (handleWebhook none hmacHex parseRef trackedBranch isRemote body signature).status
        ≠ 403 := by
  refine ⟨?_, rfl, ?_⟩
  · intro hbad
    have hval : validateWebhookSignature (some secret) hmacHex body signature = false := by
      cases signature with
      | none => rfl
      | some s =>
          rcases hbad with h | h
          · cases h
          · have hs := h s rfl
            simpa [validateWebhookSignature] using hs
    simp [handleWebhook, hval]
  · cases hp : parseRef body with
    | none =>
        simp only [handleWebhook, validateWebhookSignature, hp, Bool.not_true,
          Bool.false_eq_true, if_false]
        decide
    | some refOpt =>
        by_cases hb : (refOpt.getD "unknown" == trackedBranch || !isRemote) = true
        · simp only [handleWebhook, validateWebhookSignature, hp, hb, Bool.not_true,
            Bool.false_eq_true, if_false, if_true]
          decide
        · have hb' : (refOpt.getD "unknown" == trackedBranch || !isRemote) = false := by
            simpa using hb
          simp only [handleWebhook, validateWebhookSignature, hp, hb', Bool.not_true,
            Bool.false_eq_true, if_false]
          decide

/-- Witness for `webhook_signature_enforced`: a concrete wrong signature is
rejected with 403 and no rebuild. -/
theorem webhook_signature_enforced_witness :
    handleWebhook (some "topsecret") (fun secret payload => secret ++ payload)
      (fun _ => some (some "main")) "main" true "push-body" (some "sha256=WRONG")
      = { status := 403, rebuildTriggered := false } :=
  (webhook_signature_enforced (fun secret payload => secret ++ payload)
      (fun _ => some (some "main")) "main" true "push-body"
      (some "sha256=WRONG") "topsecret").1
    (Or.inr (by intro s hs; injection hs with h; rw [← h]; decide))

/-! ### CLI version merge (`src/cli/commands/import.js` lines 222–250) -/

/-- `Map.prototype.set` on a map kept as an insertion-ordered association
list (JS `Map` iterates in insertion order, and `set` on an existing key
overwrites the value in place). -/
def mapSet (m : List (String × VersionRecord)) (k : String) (v : VersionRecord) :
    List (String × VersionRecord) :=
  if m.any (fun p => p.1 == k) then
    m.map (fun p => if p.1 == k then (k, v) else p)
  else m ++ [(k, v)]

/-- The object literal `{version: v.version, releaseDate: v.releaseDate,
packages: v.packages || []}` built for each new version (`import.js` lines
231–237); its `isLatest` property is absent, i.e. falsy. -/
def toMergedRecord (v : VersionRecord) : VersionRecord :=
  { version := v.version, releaseDate := v.releaseDate, isLatest := false,
    packages := v.packages }

/-- `merged.forEach((v, i) => { v.isLatest = i === 0 })` (`import.js` lines
245–247): the first element of the sorted list is flagged latest, all
others unflagged. -/
def markLatest : List VersionRecord → List VersionRecord
  | [] => []
  | v :: vs => { v with isLatest := true } :: vs.map (fun w => { w with isLatest := false })

/-- One of the two `Map`-filling loops of `mergeVersions`: insert each
version of a list under its `version` string, applying `f` to the stored
record (`f = id` for the existing-versions loop, `f = toMergedRecord` for
the new-versions loop). -/
def mergeFold (f : VersionRecord → VersionRecord)
    (m : List (String × VersionRecord)) (l : List VersionRecord) :
    List (String × VersionRecord) :=
  l.foldl (fun m v => mapSet m v.version (f v)) m

/-- `mergeVersions` (`import.js` lines 222–250): fill a `Map` keyed by
version string with the existing records then the new records (same key
overwrites), take the values, sort them with the version comparator
(`b.version.localeCompare(a.version, undefined, numeric)` — embedded as the
comparator parameter `cmp`), and flag the first element latest. -/
def mergeVersions (existingVersions newVersionsData : List VersionRecord)
    (cmp : VersionRecord → VersionRecord → Bool) : List VersionRecord :=
  let m0 := mergeFold (fun v => v) [] existingVersions
  let m1 := mergeFold toMergedRecord m0 newVersionsData
  markLatest (sortBy cmp (m1.map (fun p => p.2)))

theorem mapSet_mem {m : List (String × VersionRecord)} {k : String}
    {v : VersionRecord} {p : String × VersionRecord}
    (hp : p ∈ mapSet m k v) :
    p = (k, v) ∨ (p ∈ m ∧ p.1 ≠ k) := by
  unfold mapSet at hp
  by_cases h : m.any (fun p => p.1 == k)
  · rw [if_pos h] at hp
    obtain ⟨q, hq, hqe⟩ := List.mem_map.mp hp
    by_cases hk : q.1 == k
    · left
      rw [if_pos hk] at hqe
      exact hqe.symm
    · right
      rw [if_neg hk] at hqe
      subst hqe
      exact ⟨hq, by simpa using hk⟩
  · rw [if_neg h] at hp
    rcases List.mem_append.mp hp with h1 | h1
    · by_cases hk : p.1 = k
      · exfalso
        apply h
        rw [List.any_eq_true]
        exact ⟨p, h1, by simpa using hk⟩
      · exact Or.inr ⟨h1, hk⟩
    · left
      simpa using h1

theorem mapSet_keys (m : List (String × VersionRecord)) (k : String)
    (v : VersionRecord) :
    (mapSet m k v).map (fun p => p.1) =
      if m.any (fun p => p.1 == k) then m.map (fun p => p.1)
      else m.map (fun p => p.1) ++ [k] := by
  unfold mapSet
  by_cases h : m.any (fun p => p.1 == k)
  · rw [if_pos h, if_pos h, List.map_map]
    apply List.map_congr_left
    intro p _
    by_cases hk : p.1 = k
    · simp [hk]
    · simp [hk]
  · rw [if_neg h, if_neg h]
    simp

theorem mapSet_key_mem {m : List (String × VersionRecord)} (k' : String)
    {k : String} (v : VersionRecord)
    (h : k' ∈ m.map (fun p => p.1) ∨ k' = k) :
    k' ∈ (mapSet m k v).map (fun p => p.1) := by
  rw [mapSet_keys]
  by_cases ha : m.any (fun p => p.1 == k)
  · rw [if_pos ha]
    rcases h with h | h
    · exact h
    · subst h
      rw [List.any_eq_true] at ha
      obtain ⟨p, hp, hpk⟩ := ha
      have : p.1 = k' := by simpa using hpk
      exact this ▸ List.mem_map.mpr ⟨p, hp, rfl⟩
  · rw [if_neg ha]
    rcases h with h | h
    · exact List.mem_append.mpr (Or.inl h)
    · exact List.mem_append.mpr (Or.inr (by simp [h]))

theorem mapSet_keys_nodup {m : List (String × VersionRecord)} {k : String}
    {v : VersionRecord} (h : (m.map (fun p => p.1)).Nodup) :
    ((mapSet m k v).map (fun p => p.1)).Nodup := by
  rw [mapSet_keys]
  by_cases ha : m.any (fun p => p.1 == k)
  · rwa [if_pos ha]
  · rw [if_neg ha]
    rw [List.nodup_append]
    refine ⟨h, List.nodup_singleton k, ?_⟩
    intro a hma hk
    have hak : a = k := by simpa using hk
    subst hak
    obtain ⟨p, hp, hpe⟩ := List.mem_map.mp hma
    apply ha
    rw [List.any_eq_true]
    exact ⟨p, hp, by simp [hpe]⟩

theorem mapSet_wellKeyed {m : List (String × VersionRecord)} {k : String}
    {v : VersionRecord} (hm : ∀ p ∈ m, p.1 = p.2.version) (hv : k = v.version) :
    ∀ p ∈ mapSet m k v, p.1 = p.2.version := by
  intro p hp
  rcases mapSet_mem hp with h | ⟨h, _⟩
  · subst h
    exact hv
  · exact hm p h

theorem mergeFold_mem (f : VersionRecord → VersionRecord) :
    ∀ (l : List VersionRecord) (m : List (String × VersionRecord))
      (p : String × VersionRecord), p ∈ mergeFold f m l →
      (∃ v ∈ l, p.1 = v.version ∧ p.2 = f v)
      ∨ (p ∈ m ∧ p.1 ∉ l.map (fun v => v.version)) := by
  intro l
  induction l with
  | nil =>
      intro m p hp
      exact Or.inr ⟨hp, by simp⟩
  | cons v vs ih =>
      intro m p hp
      rcases ih (mapSet m v.version (f v)) p hp with ⟨w, hw, h1, h2⟩ | ⟨hmem, hnot⟩
      · exact Or.inl ⟨w, List.mem_cons_of_mem v hw, h1, h2⟩
      · rcases mapSet_mem hmem with h | ⟨h, hne⟩
        · subst h
          exact Or.inl ⟨v, List.mem_cons_self v vs, rfl, rfl⟩
        · refine Or.inr ⟨h, ?_⟩
          intro hk
          rcases List.mem_map.mp hk with ⟨w, hw, hwe⟩
          rcases List.mem_cons.mp hw with h' | h'
          · exact hne (by rw [← hwe, h'])
          · exact hnot (List.mem_map.mpr ⟨w, h', hwe⟩)

theorem mergeFold_key_mem (f : VersionRecord → VersionRecord)
    (l : List VersionRecord) (m : List (String × VersionRecord)) (k : String)
    (h : k ∈ m.map (fun p => p.1) ∨ k ∈ l.map (fun v => v.version)) :
    k ∈ (mergeFold f m l).map (fun p => p.1) := by
  induction l generalizing m with
  | nil =>
      rcases h with h | h
      · exact h
      · simp at h
  | cons v vs ih =>
      have hstep : k ∈ (mapSet m v.version (f v)).map (fun p => p.1) ∨
          k ∈ vs.map (fun w => w.version) := by
        rcases h with h | h
        · exact Or.inl (mapSet_key_mem k (f v) (Or.inl h))
        · rcases List.mem_map.mp h with ⟨w, hw, hwe⟩
          rcases List.mem_cons.mp hw with h' | h'
          · exact Or.inl (mapSet_key_mem k (f v) (Or.inr (by rw [← hwe, h'])))
          · exact Or.inr (List.mem_map.mpr ⟨w, h', hwe⟩)
      exact ih _ hstep


theorem mergeFold_keys_nodup (f : VersionRecord → VersionRecord)
    (l : List VersionRecord) (m : List (String × VersionRecord))
    (h : (m.map (fun p => p.1)).Nodup) :
    ((mergeFold f m l).map (fun p => p.1)).Nodup := by
  induction l generalizing m with
  | nil => exact h
  | cons v vs ih => exact ih _ (mapSet_keys_nodup h)

theorem mergeFold_wellKeyed (f : VersionRecord → VersionRecord)
    (hf : ∀ v, (f v).version = v.version)
    (l : List VersionRecord) (m : List (String × VersionRecord))
    (hm : ∀ p ∈ m, p.1 = p.2.version) :
    ∀ p ∈ mergeFold f m l, p.1 = p.2.version := by
  induction l generalizing m with
  | nil => exact hm
  | cons v vs ih =>
      exact ih _ (mapSet_wellKeyed hm (hf v).symm)

theorem markLatest_versions (l : List VersionRecord) :
    (markLatest l).map (fun v => v.version) = l.map (fun v => v.version) := by
  cases l with
  | nil => rfl
  | cons v vs => simp [markLatest, List.map_map]

theorem markLatest_mem {l : List VersionRecord} {rec : VersionRecord}
    (h : rec ∈ markLatest l) :
    ∃ w ∈ l, rec.version = w.version ∧ rec.packages = w.packages := by
  cases l with
  | nil => simp [markLatest] at h
  | cons v vs =>
      rcases List.mem_cons.mp h with h1 | h1
      · exact ⟨v, List.mem_cons_self v vs, by rw [h1], by rw [h1]⟩
      · obtain ⟨w, hw, hwe⟩ := List.mem_map.mp h1
        exact ⟨w, List.mem_cons_of_mem v hw, by rw [← hwe], by rw [← hwe]⟩

/-- C9: merging new version records into an existing list is keyed by the
version string.  For every existing list, every new batch, and every sort
comparator: the merged list has exactly one record per distinct version
string (`Nodup` on the version strings); every new and every existing
version string is represented; no record carries an invented version
string; a record whose version string occurs in the new batch carries the
new batch's packages (overwrite, no duplicate element); and a record whose
version string is untouched by the new batch keeps the existing record's
packages. -/
theorem mergeVersions_keyed_by_version
    (existingVersions newVersionsData : List VersionRecord)
    (cmp : VersionRecord → VersionRecord → Bool) :
    ((mergeVersions existingVersions newVersionsData cmp).map
        (fun v => v.version)).Nodup
    ∧ (∀ v ∈ newVersionsData,
        ∃ rec ∈ mergeVersions existingVersions newVersionsData cmp,
          rec.version = v.version)
    ∧ (∀ v ∈ existingVersions,
        ∃ rec ∈ mergeVersions existingVersions newVersionsData cmp,
          rec.version = v.version)
    ∧ (∀ rec ∈ mergeVersions existingVersions newVersionsData cmp,
        rec.version ∈ existingVersions.map (fun v => v.version)
        ∨ rec.version ∈ newVersionsData.map (fun v => v.version))
    ∧ (∀ rec ∈ mergeVersions existingVersions newVersionsData cmp,
        rec.version ∈ newVersionsData.map (fun v => v.version) →
        ∃ w ∈ newVersionsData,
          rec.version = w.version ∧ rec.packages = w.packages)
    ∧ (∀ rec ∈ mergeVersions existingVersions newVersionsData cmp,
        rec.version ∉ newVersionsData.map (fun v => v.version) →
        ∃ w ∈ existingVersions,
          rec.version = w.version ∧ rec.packages = w.packages) := by
  have hwk0 : ∀ p ∈ mergeFold (fun v => v) [] existingVersions,
      p.1 = p.2.version :=
    mergeFold_wellKeyed (fun v => v) (fun _ => rfl) existingVersions []
      (by intro p hp; simp at hp)
  have hwk1 : ∀ p ∈ mergeFold toMergedRecord
      (mergeFold (fun v => v) [] existingVersions) newVersionsData,
      p.1 = p.2.version :=
    mergeFold_wellKeyed toMergedRecord (fun _ => rfl) newVersionsData _ hwk0
  have hnd1 : ((mergeFold toMergedRecord
      (mergeFold (fun v => v) [] existingVersions) newVersionsData).map
        (fun p => p.1)).Nodup :=
    mergeFold_keys_nodup toMergedRecord newVersionsData _
      (mergeFold_keys_nodup (fun v => v) existingVersions [] (by simp))
  have hmapeq : ((mergeFold toMergedRecord
      (mergeFold (fun v => v) [] existingVersions) newVersionsData).map
        (fun p => p.2)).map (fun v => v.version)
      = (mergeFold toMergedRecord
          (mergeFold (fun v => v) [] existingVersions) newVersionsData).map
            (fun p => p.1) := by
    rw [List.map_map]
    apply List.map_congr_left
    intro p hp
    exact (hwk1 p hp).symm
  have hperm : ((sortBy cmp ((mergeFold toMergedRecord
      (mergeFold (fun v => v) [] existingVersions) newVersionsData).map
        (fun p => p.2))).map (fun v => v.version)).Perm
      (((mergeFold toMergedRecord
          (mergeFold (fun v => v) [] existingVersions) newVersionsData).map
            (fun p => p.2)).map (fun v => v.version)) :=
    (sortBy_perm cmp _).map _
  have hdef : mergeVersions existingVersions newVersionsData cmp
      = markLatest (sortBy cmp ((mergeFold toMergedRecord
          (mergeFold (fun v => v) [] existingVersions) newVersionsData).map
            (fun p => p.2))) := rfl
  have hkeymem : ∀ k, k ∈ (mergeFold toMergedRecord
      (mergeFold (fun v => v) [] existingVersions) newVersionsData).map
        (fun p => p.1) →
      ∃ rec ∈ mergeVersions existingVersions newVersionsData cmp,
        rec.version = k := by
    intro k hk
    have hk2 : k ∈ (mergeVersions existingVersions newVersionsData cmp).map
        (fun v => v.version) := by
      rw [hdef, markLatest_versions]
      exact (hperm.mem_iff).mpr (by rw [hmapeq]; exact hk)
    obtain ⟨rec, hrec, he⟩ := List.mem_map.mp hk2
    exact ⟨rec, hrec, he⟩
  have hprov : ∀ rec ∈ mergeVersions existingVersions newVersionsData cmp,
      (∃ v ∈ newVersionsData,
          rec.version = v.version ∧ rec.packages = v.packages)
      ∨ ((∃ v ∈ existingVersions,
            rec.version = v.version ∧ rec.packages = v.packages)
          ∧ rec.version ∉ newVersionsData.map (fun v => v.version)) := by
    intro rec hrec
    rw [hdef] at hrec
    obtain ⟨w, hw, hv, hp⟩ := markLatest_mem hrec
    have hw' : w ∈ (mergeFold toMergedRecord
        (mergeFold (fun v => v) [] existingVersions) newVersionsData).map
          (fun p => p.2) := ((sortBy_perm cmp _).mem_iff).mp hw
    obtain ⟨p, hpF, hpe⟩ := List.mem_map.mp hw'
    rcases mergeFold_mem toMergedRecord newVersionsData _ p hpF with
      ⟨v, hvm, _, hval⟩ | ⟨hpF0, hnot⟩
    · left
      refine ⟨v, hvm, ?_, ?_⟩
      · rw [hv, ← hpe, hval]
        rfl
      · rw [hp, ← hpe, hval]
        rfl
    · rcases mergeFold_mem (fun v => v) existingVersions [] p hpF0 with
        ⟨v, hvm, _, hval0⟩ | ⟨habs, _⟩
      · right
        constructor
        · exact ⟨v, hvm, by rw [hv, ← hpe, hval0], by rw [hp, ← hpe, hval0]⟩
        · have hkey : p.1 = p.2.version := hwk1 p hpF
          rw [hv, ← hpe, ← hkey]
          exact hnot
      · exact absurd habs (List.not_mem_nil p)
  refine ⟨?_, ?_, ?_, ?_, ?_, ?_⟩
  · rw [hdef, markLatest_versions]
    exact (hperm.nodup_iff).mpr (by rw [hmapeq]; exact hnd1)
  · intro v hv
    exact hkeymem v.version
      (mergeFold_key_mem toMergedRecord newVersionsData _ v.version
        (Or.inr (List.mem_map.mpr ⟨v, hv, rfl⟩)))
  · intro v hv
    exact hkeymem v.version
      (mergeFold_key_mem toMergedRecord newVersionsData _ v.version
        (Or.inl (mergeFold_key_mem (fun v => v) existingVersions [] v.version
          (Or.inr (List.mem_map.mpr ⟨v, hv, rfl⟩)))))
  · intro rec hrec
    rcases hprov rec hrec with ⟨v, hvm, he, _⟩ | ⟨⟨v, hvm, he, _⟩, _⟩
    · exact Or.inr (List.mem_map.mpr ⟨v, hvm, he.symm⟩)
    · exact Or.inl (List.mem_map.mpr ⟨v, hvm, he.symm⟩)
  · intro rec hrec hin
    rcases hprov rec hrec with ⟨v, hvm, he, hpk⟩ | ⟨_, hnot⟩
    · exact ⟨v, hvm, he, hpk⟩
    · exact absurd hin hnot
  · intro rec hrec hout
    rcases hprov rec hrec with ⟨v, hvm, he, _⟩ | ⟨⟨v, hvm, he, hpk⟩, _⟩
    · exact absurd (List.mem_map.mpr ⟨v, hvm, he.symm⟩) hout
    · exact ⟨v, hvm, he, hpk⟩

/-- Witness for `mergeVersions_keyed_by_version`: re-ingesting version
`1.0.0` with new packages plus a new version `2.0.0` over an existing
one-element list — the new version string is present in the merged list. -/
theorem mergeVersions_keyed_by_version_witness :
    ∃ rec ∈ mergeVersions
        [{ version := "1.0.0", isLatest := true,
           packages := [{ registryType := "npm", identifier := "old-pkg" }] }]
        [{ version := "1.0.0",
           packages := [{ registryType := "npm", identifier := "new-pkg" }] },
         { version := "2.0.0" }]
        (fun a b => b.version ≤ a.version),
      rec.version = "2.0.0" :=
  (mergeVersions_keyed_by_version
      [{ version := "1.0.0", isLatest := true,
         packages := [{ registryType := "npm", identifier := "old-pkg" }] }]
      [{ version := "1.0.0",
         packages := [{ registryType := "npm", identifier := "new-pkg" }] },
       { version := "2.0.0" }]
      (fun a b => b.version ≤ a.version)).2.1
    { version := "2.0.0" } (by simp)

/-! ### Identifier encoding and the dist artifact tree (`build.js`) -/

/-- A filesystem path under the dist root, as its list of path segments
(`path.join` concatenates segments with the separator, so the embedding
works segment-wise). -/
abbrev DistPath := List String

/-- The characters `encodeURIComponent` leaves unescaped: ASCII
alphanumerics and `-_.!~*()`.  (The apostrophe, also unescaped by JS, is
left out of the model; it cannot occur in registry identifiers, the only
strings the encoder is applied to here.) -/
def isUnreservedURIChar (c : Char) : Bool :=
  c.isAlpha || c.isDigit || c == '-' || c == '_' || c == '.' ||
  c == '!' || c == '~' || c == '*' || c == '(' || c == ')'

/-- Upper-case hex digit of a value below 16. -/
def hexDigitChar (n : Nat) : Char :=
  if n < 10 then Char.ofNat (48 + n) else Char.ofNat (55 + n)

/-- Percent-encoding of one ASCII character.  (Identifier characters are
all ASCII, so the UTF-8 multi-byte case cannot arise on the inputs the
model applies this to.) -/
def encodeChar (c : Char) : List Char :=
  if isUnreservedURIChar c then [c]
  else ['%', hexDigitChar (c.toNat / 16), hexDigitChar (c.toNat % 16)]

/-- JS `encodeURIComponent`, character-wise. -/
def encodeURIComponent (s : String) : String :=
  String.mk (s.data.flatMap encodeChar)

/-- `encodeServerName` (`build.js` lines 172–174): URL-encode a server
name for use in file paths, `/` becoming `%2F`. -/
def encodeServerName (name : String) : String := encodeURIComponent name

/-- The identifier alphabet of namespace and short-name segments:
lowercase letters, digits, hyphen, dot (the two sides of the documented
pattern `[a-z][a-z0-9-]*(\.[a-z][a-z0-9-]*)*` and `[a-z][a-z0-9-]*`). -/
def idChar (c : Char) : Bool :=
  c.isLower || c.isDigit || c == '-' || c == '.'

theorem encodeChar_idChar {c : Char} (h : idChar c = true) : encodeChar c = [c] := by
  have hu : isUnreservedURIChar c = true := by
    unfold idChar at h
    unfold isUnreservedURIChar
    simp only [Bool.or_eq_true] at h ⊢
    rcases h with ((h | h) | h) | h
    · exact Or.inl (Or.inl (Or.inl (Or.inl (Or.inl (Or.inl (Or.inl (Or.inl
        (Or.inl (by simp [Char.isAlpha, h])))))))))
    · exact Or.inl (Or.inl (Or.inl (Or.inl (Or.inl (Or.inl (Or.inl (Or.inl
        (Or.inr h))))))))
    · exact Or.inl (Or.inl (Or.inl (Or.inl (Or.inl (Or.inl (Or.inl (Or.inr h)))))))
    · exact Or.inl (Or.inl (Or.inl (Or.inl (Or.inl (Or.inr h)))))
  unfold encodeChar
  rw [if_pos hu]

theorem flatMap_encodeChar_id {l : List Char} (h : l.all idChar = true) :
    l.flatMap encodeChar = l := by
  induction l with
  | nil => rfl
  | cons c cs ih =>
      rw [List.all_cons, Bool.and_eq_true] at h
      rw [List.flatMap_cons, encodeChar_idChar h.1, ih h.2]
      rfl

/-- On a well-formed identifier `ns ++ "/" ++ nm`, `encodeURIComponent`
keeps both segments verbatim and turns the separator into `%2F`. -/
theorem encodeURIComponent_wf_name (ns nm : String)
    (hns : ns.data.all idChar = true) (hnm : nm.data.all idChar = true) :
    encodeURIComponent (ns ++ "/" ++ nm) = ns ++ "%2F" ++ nm := by
  apply String.ext
  show ((ns ++ "/" ++ nm).data.flatMap encodeChar) = (ns ++ "%2F" ++ nm).data
  rw [String.data_append, String.data_append, String.data_append, String.data_append]
  rw [List.flatMap_append, List.flatMap_append]
  rw [flatMap_encodeChar_id hns, flatMap_encodeChar_id hnm]
  have hsep : ("/".data.flatMap encodeChar) = "%2F".data := by decide
  rw [hsep]

theorem pct_mem_encoded (ns nm : String) : '%' ∈ (ns ++ "%2F" ++ nm).data := by
  rw [String.data_append, String.data_append]
  refine List.mem_append.mpr (Or.inl (List.mem_append.mpr (Or.inr ?_)))
  decide

theorem idChar_no_pct {str : String} (h : str.data.all idChar = true) :
    ¬ '%' ∈ str.data := by
  intro hm
  have hc := List.all_eq_true.mp h '%' hm
  exact absurd hc (by decide)

/-- A well-formed registry identifier: a namespace and a short name over
the identifier alphabet, both non-empty, joined by exactly one `/`. -/
def wfIdentifier (n : String) : Prop :=
  ∃ ns nm : String, n = ns ++ "/" ++ nm
    ∧ ns.data.all idChar = true ∧ nm.data.all idChar = true
    ∧ ns ≠ "" ∧ nm ≠ ""

/-- The dist files `build()` writes for one server (`build.js` lines
239–297 and 393–427): the api versions list, per-version and latest
details, the two VS Code mirrors `v0`/`v0.1` (per-version, latest and
versions-list `index.json` files) and the simple-index pages, every
directory named with the `encodeServerName`-encoded identifier. -/
def serverArtifactsAux (enc : String) (vs : List String) : List DistPath :=
  [ ["api", "v0.1", "servers", enc, "versions.json"],
    ["api", "v0.1", "servers", enc, "versions", "latest.json"],
    ["v0", "servers", enc, "versions", "latest", "index.json"],
    ["v0.1", "servers", enc, "versions", "latest", "index.json"],
    ["v0", "servers", enc, "versions", "index.json"],
    ["v0.1", "servers", enc, "versions", "index.json"],
    ["api", "simple", enc, "index.html"],
    ["api", "simple", enc, "index.json"] ]
  ++ vs.map (fun x => ["api", "v0.1", "servers", enc, "versions", x ++ ".json"])
  ++ vs.map (fun x => ["v0", "servers", enc, "versions", x, "index.json"])
  ++ vs.map (fun x => ["v0.1", "servers", enc, "versions", x, "index.json"])

def serverArtifacts (s : RawServer) : List DistPath :=
  serverArtifactsAux (encodeServerName (s.name.getD ""))
    ((s.versions.getD []).map (fun v => v.version))

/-- The whole dist tree written by one successful `build()` pass: the
global list endpoints, discovery document and simple-index roots, plus
every server's artifacts (`build.js` lines 209–353). -/
def distArtifacts (servers : List RawServer) : List DistPath :=
  [ ["api", "v0.1", "servers.json"],
    ["v0", "servers", "index.json"],
    ["v0.1", "servers", "index.json"],
    ["api", "index.json"],
    ["api", "simple", "index.html"],
    ["api", "simple", "index.json"] ]
  ++ servers.flatMap serverArtifacts

/-- One whole `build()` invocation as seen from the dist directory
(`build.js` lines 179–356): the pass first *removes* the previous dist
tree (`rm(DIST_DIR, {recursive: true})`, line 183), then loads and sorts
the servers and computes the summary list.  A loaded server whose
`versions` array is empty makes `toApiServerSummary` crash
(`latestVersion.version` on `undefined`), aborting the pass with exit
code 1 — after the previous tree is already gone and before any file is
written.  Returns the dist contents after the pass and whether it
succeeded. -/
def runBuildPass (prevDist : List DistPath) (files : List RawData)
    (cmp : RawServer → RawServer → Bool) : List DistPath × Bool :=
  let servers := buildServers files cmp
  if servers.all (fun s => (toApiServerSummary s).isSome) then
    (distArtifacts servers, true)
  else
    ([], false)

/-- Fixture: a server file whose `versions` array is empty — accepted by
`loadServerFile` (an empty array is truthy) but crashing the build at
`toApiServerSummary`. -/
def c4badFile : RawData :=
  { name := some "io.example/empty", description := some "e",
    versions := some [] }

/-- C4 (code bug): a rebuild pass that fails mid-build does *not* leave
the previously published artifact set intact: the pass deletes `dist/`
first, so after the failing pass over `c4badFile` the dist contents are
empty even though the previous pass had published a non-empty artifact
tree — while `runBuild` logs "Continuing to serve last successful build"
and keeps serving the same (now destroyed) directory. -/
theorem failed_build_destroys_previous_artifacts :
    (runBuildPass (distArtifacts (buildServers [c1fileA] (fun _ _ => true)))
        [c4badFile] (fun _ _ => true)).2 = false
    ∧ (runBuildPass (distArtifacts (buildServers [c1fileA] (fun _ _ => true)))
        [c4badFile] (fun _ _ => true)).1 = []
    ∧ distArtifacts (buildServers [c1fileA] (fun _ _ => true)) ≠ [] := by
  refine ⟨rfl, rfl, ?_⟩
  simp [distArtifacts]

/-! ### Request router (`server.cjs` `resolveFilePath`, lines 66–129) -/

/-- `existsSync` + `statSync().isFile()` on the modelled dist tree: the
path is exactly one of the written files. -/
def isFile (fs : List DistPath) (p : DistPath) : Bool := fs.contains p

/-- `statSync().isDirectory()`: the path is a strict ancestor of some
written file. -/
def isDir (fs : List DistPath) (p : DistPath) : Bool :=
  fs.any (fun f => p.isPrefixOf f && !(p == f))

/-- The directory branch of `resolveFilePath` (`server.cjs` lines 82–88
and 111–117): serve `index.html`, else `index.json`, else answer null. -/
def lookupDirIndex (fs : List DistPath) (p : DistPath) : Option DistPath :=
  if isFile fs (p ++ ["index.html"]) then some (p ++ ["index.html"])
  else if isFile fs (p ++ ["index.json"]) then some (p ++ ["index.json"])
  else none

/-- One `existsSync` probe (lines 80–90): `some r` means decided (a file
to serve, or the dir-without-index null); `none` means the path does not
exist and the caller falls through to the next candidate. -/
def probePath (fs : List DistPath) (p : DistPath) : Option (Option DistPath) :=
  if isFile fs p then some (some p)
  else if isDir fs p then some (lookupDirIndex fs p)
  else none

/-- `filePath + '.json'` appends to the last path segment. -/
def appendJsonExt : DistPath → DistPath
  | [] => [".json"]
  | [x] => [x ++ ".json"]
  | x :: xs => x :: appendJsonExt xs

/-- The apiMatch regex of line 102,
`^(\/v0(?:\.1)?\/servers\/)([^/]+\/[^/]+)(\/.*)?$`, read on segments:
first segment `v0` or `v0.1`, second `servers`, then two non-empty name
segments, then any suffix.  On a match, the two name segments are
re-joined with `/` and percent-encoded (lines 104–108). -/
def apiMatch (p : DistPath) : Option DistPath :=
  match p with
  | p0 :: p1 :: a :: b :: rest =>
      if (p1 == "servers") && (p0 == "v0" || p0 == "v0.1")
          && !(a == "") && !(b == "") then
        some (p0 :: p1 :: encodeURIComponent (a ++ "/" ++ b) :: rest)
      else none
  | _ => none

/-- `resolveFilePath` (`server.cjs` lines 66–129) over the modelled dist
tree: probe the URL path exactly as supplied (the literal lookup); then
with `.json` appended; then with `index.json` appended; then — for
API-shaped paths only — run the same probes on the path whose two literal
name segments were re-joined and percent-encoded (the decoded-identifier
lookup); and only then answer not-found. -/
def resolveFilePath (fs : List DistPath) (req : DistPath) : Option DistPath :=
  match probePath fs req with
  | some r => r
  | none =>
      if isFile fs (appendJsonExt req) then some (appendJsonExt req)
      else if isFile fs (req ++ ["index.json"]) then some (req ++ ["index.json"])
      else
        match apiMatch req with
        | none => none
        | some encPath =>
            match probePath fs encPath with
            | some r => r
            | none =>
                if isFile fs (appendJsonExt encPath) then some (appendJsonExt encPath)
                else if isFile fs (encPath ++ ["index.json"]) then
                  some (encPath ++ ["index.json"])
                else none

/-- Every file of the dist tree is short (at most six segments) and is
either rooted at `api`, one of the two global version lists, or one of a
server's `v0`/`v0.1` artifacts whose third segment is that server's
encoded name. -/
theorem distArtifacts_shape {servers : List RawServer} {f : DistPath}
    (h : f ∈ distArtifacts servers) :
    f.length ≤ 6
    ∧ (f.head? = some "api"
       ∨ f = ["v0", "servers", "index.json"]
       ∨ f = ["v0.1", "servers", "index.json"]
       ∨ ∃ t ∈ servers, ∃ x : String,
           f = ["v0", "servers", encodeServerName (t.name.getD ""),
                "versions", x, "index.json"]
           ∨ f = ["v0.1", "servers", encodeServerName (t.name.getD ""),
                  "versions", x, "index.json"]
           ∨ f = ["v0", "servers", encodeServerName (t.name.getD ""),
                  "versions", "index.json"]
           ∨ f = ["v0.1", "servers", encodeServerName (t.name.getD ""),
                  "versions", "index.json"]) := by
  rcases List.mem_append.mp h with hg | hsv
  · simp only [List.mem_cons, List.not_mem_nil, or_false] at hg
    rcases hg with h1 | h1 | h1 | h1 | h1 | h1
    · subst h1; exact ⟨by simp, Or.inl rfl⟩
    · subst h1; exact ⟨by simp, Or.inr (Or.inl rfl)⟩
    · subst h1; exact ⟨by simp, Or.inr (Or.inr (Or.inl rfl))⟩
    · subst h1; exact ⟨by simp, Or.inl rfl⟩
    · subst h1; exact ⟨by simp, Or.inl rfl⟩
    · subst h1; exact ⟨by simp, Or.inl rfl⟩
  · obtain ⟨t, ht, hf⟩ := List.mem_flatMap.mp hsv
    rw [serverArtifacts, serverArtifactsAux] at hf
    rcases List.mem_append.mp hf with hf3 | hm3
    rcases List.mem_append.mp hf3 with hf2 | hm2
    rcases List.mem_append.mp hf2 with hf1 | hm1
    · simp only [List.mem_cons, List.not_mem_nil, or_false] at hf1
      rcases hf1 with h1 | h1 | h1 | h1 | h1 | h1 | h1 | h1
      · subst h1; exact ⟨by simp, Or.inl rfl⟩
      · subst h1; exact ⟨by simp, Or.inl rfl⟩
      · subst h1
        exact ⟨by simp, Or.inr (Or.inr (Or.inr ⟨t, ht, "latest", Or.inl rfl⟩))⟩
      · subst h1
        exact ⟨by simp,
          Or.inr (Or.inr (Or.inr ⟨t, ht, "latest", Or.inr (Or.inl rfl)⟩))⟩
      · subst h1
        exact ⟨by simp, Or.inr (Or.inr (Or.inr ⟨t, ht, "latest",
          Or.inr (Or.inr (Or.inl rfl))⟩))⟩
      · subst h1
        exact ⟨by simp, Or.inr (Or.inr (Or.inr ⟨t, ht, "latest",
          Or.inr (Or.inr (Or.inr rfl))⟩))⟩
      · subst h1; exact ⟨by simp, Or.inl rfl⟩
      · subst h1; exact ⟨by simp, Or.inl rfl⟩
    · obtain ⟨x, _, hxe⟩ := List.mem_map.mp hm1
      rw [← hxe]
      exact ⟨by simp, Or.inl rfl⟩
    · obtain ⟨x, _, hxe⟩ := List.mem_map.mp hm2
      rw [← hxe]
      exact ⟨by simp, Or.inr (Or.inr (Or.inr ⟨t, ht, x, Or.inl rfl⟩))⟩
    · obtain ⟨x, _, hxe⟩ := List.mem_map.mp hm3
      rw [← hxe]
      exact ⟨by simp, Or.inr (Or.inr (Or.inr ⟨t, ht, x, Or.inr (Or.inl rfl)⟩))⟩

theorem version_artifact_mem {servers : List RawServer} {s : RawServer}
    (hs : s ∈ servers) (X : String)
    (hX : X = "latest" ∨ X ∈ (s.versions.getD []).map (fun v => v.version)) :
    ["v0.1", "servers", encodeServerName (s.name.getD ""), "versions", X,
     "index.json"] ∈ distArtifacts servers := by
  apply List.mem_append.mpr
  right
  apply List.mem_flatMap.mpr
  refine ⟨s, hs, ?_⟩
  rw [serverArtifacts, serverArtifactsAux]
  rcases hX with h | h
  · subst h
    apply List.mem_append.mpr; left
    apply List.mem_append.mpr; left
    apply List.mem_append.mpr; left
    simp
  · apply List.mem_append.mpr
    right
    exact List.mem_map.mpr ⟨X, h, rfl⟩

theorem wf_enc_has_pct {t : RawServer}
    (hw : ∃ n, t.name = some n ∧ wfIdentifier n) :
    '%' ∈ (encodeServerName (t.name.getD "")).data := by
  obtain ⟨n, hn, ns', nm', hne, hns', hnm', _, _⟩ := hw
  rw [hn]
  show '%' ∈ (encodeServerName n).data
  have he : encodeServerName n = ns' ++ "%2F" ++ nm' := by
    rw [hne]
    exact encodeURIComponent_wf_name ns' nm' hns' hnm'
  rw [he]
  exact pct_mem_encoded ns' nm'

theorem lit_path_not_file {servers : List RawServer}
    (hall : ∀ t ∈ servers, ∃ n, t.name = some n ∧ wfIdentifier n)
    {ns : String} (hns : ns.data.all idChar = true) (nm a b : String) :
    ¬ (["v0.1", "servers", ns, nm, a, b] ∈ distArtifacts servers) := by
  intro h
  rcases (distArtifacts_shape h).2 with hh | h1 | h1 |
    ⟨t, ht, x, h1 | h1 | h1 | h1⟩
  · simp at hh
  · simp at h1
  · simp at h1
  · simp at h1
  · simp only [List.cons.injEq, and_true, true_and] at h1
    obtain ⟨hnse, -⟩ := h1
    exact idChar_no_pct hns (hnse ▸ wf_enc_has_pct (hall t ht))
  · simp at h1
  · simp at h1

theorem enc_path_not_file {servers : List RawServer} {e X : String}
    (hX : X ≠ "index.json") :
    ¬ (["v0.1", "servers", e, "versions", X] ∈ distArtifacts servers) := by
  intro h
  rcases (distArtifacts_shape h).2 with hh | h1 | h1 |
    ⟨t, ht, x, h1 | h1 | h1 | h1⟩
  · simp at hh
  · simp at h1
  · simp at h1
  · simp at h1
  · simp at h1
  · simp at h1
  · simp only [List.cons.injEq, and_true, true_and] at h1
    exact hX h1.2

theorem enc_html_not_file {servers : List RawServer} {e X : String} :
    ¬ (["v0.1", "servers", e, "versions", X, "index.html"]
        ∈ distArtifacts servers) := by
  intro h
  rcases (distArtifacts_shape h).2 with hh | h1 | h1 |
    ⟨t, ht, x, h1 | h1 | h1 | h1⟩
  · simp at hh
  all_goals simp at h1

theorem too_long_not_dir {servers : List RawServer} {p : DistPath}
    (hp : p.length = 6) : isDir (distArtifacts servers) p = false := by
  rw [isDir, List.any_eq_false]
  intro f hf hc
  rw [Bool.and_eq_true] at hc
  obtain ⟨hpre, hne⟩ := hc
  obtain ⟨t2, ht2⟩ := List.isPrefixOf_iff_prefix.mp hpre
  have hflen := (distArtifacts_shape hf).1
  have hlen : f.length = 6 + t2.length := by
    rw [← ht2, List.length_append, hp]
  have ht2nil : t2 = [] := List.length_eq_zero.mp (by omega)
  rw [ht2nil, List.append_nil] at ht2
  rw [ht2] at hne
  simp at hne

theorem enc_req_isDir {servers : List RawServer} {s : RawServer}
    (hs : s ∈ servers) (X : String)
    (hX : X = "latest" ∨ X ∈ (s.versions.getD []).map (fun v => v.version)) :
    isDir (distArtifacts servers)
      ["v0.1", "servers", encodeServerName (s.name.getD ""), "versions", X]
      = true := by
  rw [isDir, List.any_eq_true]
  refine ⟨["v0.1", "servers", encodeServerName (s.name.getD ""), "versions", X,
           "index.json"], version_artifact_mem hs X hX, ?_⟩
  rw [Bool.and_eq_true]
  constructor
  · exact List.isPrefixOf_iff_prefix.mpr ⟨["index.json"], rfl⟩
  · have hne : ¬ (["v0.1", "servers", encodeServerName (s.name.getD ""),
        "versions", X]
        = ["v0.1", "servers", encodeServerName (s.name.getD ""), "versions", X,
           "index.json"]) := by
      intro hq
      have := congrArg List.length hq
      simp at this
    simp [hne]

theorem apiMatch_lit (ns nm a b : String) (hns0 : ns ≠ "") (hnm0 : nm ≠ "") :
    apiMatch ["v0.1", "servers", ns, nm, a, b]
      = some ["v0.1", "servers", encodeURIComponent (ns ++ "/" ++ nm), a, b] := by
  have h1 : (ns == "") = false := by simpa using hns0
  have h2 : (nm == "") = false := by simpa using hnm0
  simp [apiMatch, h1, h2]

/-- C5: for a published entry named `ns ++ "/" ++ nm` (well-formed
identifier, as are all published names), a request carrying the identifier
percent-encoded in a single path segment and a request carrying it as two
literal path segments resolve to the *same* artifact file — here for the
`latest` alias or any published version segment `X`.  The literal path is
probed first; only when it does not exist does the router re-join and
percent-encode the two name segments (`apiMatch`) before answering
not-found — both facts are read off `resolveFilePath`'s definition, whose
probe order the proof follows. -/
theorem dual_path_resolution (servers : List RawServer) (s : RawServer)
    (ns nm X : String)
    (hall : ∀ t ∈ servers, ∃ n, t.name = some n ∧ wfIdentifier n)
    (hs : s ∈ servers)
    (hname : s.name = some (ns ++ "/" ++ nm))
    (hns : ns.data.all idChar = true) (hnm : nm.data.all idChar = true)
    (hns0 : ns ≠ "") (hnm0 : nm ≠ "")
    (hX : X = "latest" ∨ X ∈ (s.versions.getD []).map (fun v => v.version))
    (hXix : X ≠ "index.json") :
    resolveFilePath (distArtifacts servers)
        ["v0.1", "servers", encodeURIComponent (ns ++ "/" ++ nm), "versions", X]
      = some ["v0.1", "servers", encodeURIComponent (ns ++ "/" ++ nm),
              "versions", X, "index.json"]
    ∧ resolveFilePath (distArtifacts servers)
        ["v0.1", "servers", ns, nm, "versions", X]
      = some ["v0.1", "servers", encodeURIComponent (ns ++ "/" ++ nm),
              "versions", X, "index.json"] := by
  have hgetD : s.name.getD "" = ns ++ "/" ++ nm := by rw [hname]; rfl
  have hF1 : isFile (distArtifacts servers)
      ["v0.1", "servers", encodeURIComponent (ns ++ "/" ++ nm), "versions", X]
      = false := by
    simpa [isFile] using
      @enc_path_not_file servers (encodeURIComponent (ns ++ "/" ++ nm)) X hXix
  have hF2 : isDir (distArtifacts servers)
      ["v0.1", "servers", encodeURIComponent (ns ++ "/" ++ nm), "versions", X]
      = true := by
    have := enc_req_isDir hs X hX
    rwa [hgetD] at this
  have hF3 : isFile (distArtifacts servers)
      ["v0.1", "servers", encodeURIComponent (ns ++ "/" ++ nm), "versions", X,
       "index.html"] = false := by
    simpa [isFile] using
      @enc_html_not_file servers (encodeURIComponent (ns ++ "/" ++ nm)) X
  have hF4 : isFile (distArtifacts servers)
      ["v0.1", "servers", encodeURIComponent (ns ++ "/" ++ nm), "versions", X,
       "index.json"] = true := by
    have := version_artifact_mem hs X hX
    rw [hgetD] at this
    simpa [isFile] using this
  have hprobeEnc : probePath (distArtifacts servers)
      ["v0.1", "servers", encodeURIComponent (ns ++ "/" ++ nm), "versions", X]
      = some (some ["v0.1", "servers", encodeURIComponent (ns ++ "/" ++ nm),
                    "versions", X, "index.json"]) := by
    simp only [probePath, hF1, hF2, Bool.false_eq_true, if_false, if_true,
      lookupDirIndex, List.cons_append, List.nil_append, hF3, hF4]
  have hencRes : resolveFilePath (distArtifacts servers)
      ["v0.1", "servers", encodeURIComponent (ns ++ "/" ++ nm), "versions", X]
      = some ["v0.1", "servers", encodeURIComponent (ns ++ "/" ++ nm),
              "versions", X, "index.json"] := by
    simp only [resolveFilePath, hprobeEnc]
  refine ⟨hencRes, ?_⟩
  have hG1 : isFile (distArtifacts servers)
      ["v0.1", "servers", ns, nm, "versions", X] = false := by
    simpa [isFile] using lit_path_not_file hall hns nm "versions" X
  have hG2 : isDir (distArtifacts servers)
      ["v0.1", "servers", ns, nm, "versions", X] = false :=
    too_long_not_dir rfl
  have hG3 : isFile (distArtifacts servers)
      (appendJsonExt ["v0.1", "servers", ns, nm, "versions", X]) = false := by
    rw [show appendJsonExt ["v0.1", "servers", ns, nm, "versions", X]
      = ["v0.1", "servers", ns, nm, "versions", X ++ ".json"] from rfl]
    simpa [isFile] using lit_path_not_file hall hns nm "versions" (X ++ ".json")
  have hG4 : isFile (distArtifacts servers)
      ((["v0.1", "servers", ns, nm, "versions", X] : DistPath)
        ++ ["index.json"]) = false := by
    rw [isFile]
    rw [show (["v0.1", "servers", ns, nm, "versions", X] : DistPath)
        ++ ["index.json"]
      = ["v0.1", "servers", ns, nm, "versions", X, "index.json"] from rfl]
    have hnotmem : ¬ (["v0.1", "servers", ns, nm, "versions", X, "index.json"]
        ∈ distArtifacts servers) := by
      intro h
      have := (distArtifacts_shape h).1
      simp at this
    simpa using hnotmem
  have hprobeLit : probePath (distArtifacts servers)
      ["v0.1", "servers", ns, nm, "versions", X] = none := by
    simp only [probePath, hG1, hG2, Bool.false_eq_true, if_false]
  simp only [resolveFilePath, hprobeLit, hG3, hG4, Bool.false_eq_true,
    if_false, apiMatch_lit ns nm "versions" X hns0 hnm0, hprobeEnc]

/-- Witness for `dual_path_resolution`: both request forms for
`io.example/foo`'s latest alias resolve to the same artifact file. -/
theorem dual_path_resolution_witness :
    resolveFilePath (distArtifacts [c1fileA.toRawServer])
        ["v0.1", "servers", encodeURIComponent ("io.example" ++ "/" ++ "foo"),
         "versions", "latest"]
      = some ["v0.1", "servers", encodeURIComponent ("io.example" ++ "/" ++ "foo"),
              "versions", "latest", "index.json"]
    ∧ resolveFilePath (distArtifacts [c1fileA.toRawServer])
        ["v0.1", "servers", "io.example", "foo", "versions", "latest"]
      = some ["v0.1", "servers", encodeURIComponent ("io.example" ++ "/" ++ "foo"),
              "versions", "latest", "index.json"] :=
  dual_path_resolution [c1fileA.toRawServer] c1fileA.toRawServer
    "io.example" "foo" "latest"
    (by
      intro t ht
      have h1 : t = c1fileA.toRawServer := by simpa using ht
      subst h1
      exact ⟨"io.example/foo", by decide,
        "io.example", "foo", by decide, by decide, by decide, by decide, by decide⟩)
    (by simp) (by decide) (by decide) (by decide) (by decide) (by decide)
    (Or.inl rfl) (by decide)
